import Mathlib

/-!
Verification of the Warm_Call_Transfer orchestration core and client pages.

The repository's files under verification:
- the orchestration backend (session/transfer registries, FastAPI endpoints):
  not present under `src/`; its operations are modelled from the spec
  (each such definition's doc comment starts with `Modelled from the spec:`);
- `src/unnamed/part_001`: the warm-transfer client page (roles caller /
  agent_a / agent_b, polling hooks, transfer flow, logs, disconnect);
- `src/frontend/src/app/page.tsx`: the simpler room page (participant list
  handlers).
-/

namespace WarmTransfer

/-- Lifecycle status of a Call Session. Modelled from the spec: §3, "created on
call start (status = `active`); status becomes `transferring` ...; status
becomes `completed` when the referenced transfer completes". -/
inductive CallStatus
  | active
  | transferring
  | completed
deriving DecidableEq

/-- Lifecycle status of a Transfer Session. Modelled from the spec: §3,
"created by initiate transfer (status = `briefing`); transitions to
`completed` by complete transfer". -/
inductive TransferStatus
  | briefing
  | completed
deriving DecidableEq

/-- An access credential of the Credential Issuer. Modelled from the spec: §6
`mint(identity, room) -> (credential, endpointURL)`; the nonce records the
order of minting, so two separately minted credentials are distinct values. -/
structure Credential where
  identity : String
  room : String
  nonce : Nat
deriving DecidableEq

/-- A Call Session record. Modelled from the spec: §3 "Call Session". -/
structure CallSession where
  call_id : Nat
  caller_name : String
  room_name : String
  status : CallStatus
  created_at : Nat
deriving DecidableEq

/-- A Transfer Session record. Modelled from the spec: §3 "Transfer Session";
`final_room` and `caller_credential` are stamped at completion. -/
structure TransferSession where
  transfer_id : Nat
  original_room : String
  caller_name : String
  agent_b : String
  transfer_room : String
  summary : String
  agent_script : String
  status : TransferStatus
  final_room : Option String
  caller_credential : Option Credential
  created_at : Nat
deriving DecidableEq

/-- The error taxonomy. Modelled from the spec: §7. -/
inductive ApiError
  | notFound
  | invalidState
  | conflict
deriving DecidableEq

/-- The two in-memory registries plus the mint counter of the Credential
Issuer. Modelled from the spec: §2 "Session Registry" and "Transfer Registry"
(the backend source is not under src/). `mintCount` counts credentials minted
so far, so an unchanged `mintCount` means no credential was minted. -/
structure Registry where
  calls : List CallSession
  transfers : List TransferSession
  mintCount : Nat
deriving DecidableEq

def Registry.empty : Registry := ⟨[], [], 0⟩

/-- Every room name the registries currently know: the calls' original rooms
and the transfers' transfer rooms. -/
def allRooms (s : Registry) : List String :=
  s.calls.map (fun c => c.room_name) ++ s.transfers.map (fun t => t.transfer_room)

/-- Mint one credential. Modelled from the spec: §6 Credential Issuer,
"assumed always available". -/
def mint (identity room : String) (s : Registry) : Credential × Registry :=
  (⟨identity, room, s.mintCount⟩, { s with mintCount := s.mintCount + 1 })

/-- Fallback summary text. Modelled from the spec: §2 Summary Generator
"falls back to a deterministic truncation/template if the external AI
provider is unavailable". -/
def fallbackSummary (transcript : String) : String :=
  "Summary unavailable. Transcript excerpt: " ++ transcript.take 200

/-- Fallback briefing script. Modelled from the spec: §4.2 step 2, "a generic
briefing script". -/
def fallbackScript : String :=
  "You are receiving a warm transfer. Review the call summary and assist the caller."

/-- createCall. Modelled from the spec: §4.1, "allocates a fresh call id and
room name, guaranteed unique against all currently-active rooms; inserts with
status `active`; fails with `ConflictError` only if id generation collides".
The generated id and room name arrive as parameters (the randomness of the
environment); §6 "Start call" mints credentials for the caller and Agent A. -/
def createCall (callerName : String) (genId : Nat) (genRoom : String) (now : Nat)
    (s : Registry) : Except ApiError (CallSession × Registry) :=
  if genRoom ∈ allRooms s ∨ genId ∈ s.calls.map (fun c => c.call_id) then
    .error .conflict
  else
    let (_, s1) := mint callerName genRoom s
    let (_, s2) := mint "agent_a" genRoom s1
    let c : CallSession := ⟨genId, callerName, genRoom, .active, now⟩
    .ok (c, { s2 with calls := s2.calls ++ [c] })

/-- markTransferring. Modelled from the spec: §4.1, "transitions the call in
that room to `transferring`; fails with `InvalidStateError` if the call is
not `active` or does not exist". -/
def markTransferring (room : String) (s : Registry) : Except ApiError Registry :=
  match s.calls.find? (fun c => decide (c.room_name = room)) with
  | none => .error .invalidState
  | some c =>
    if c.status = .active then
      .ok { s with calls := s.calls.map (fun u =>
              if u.room_name = room then { u with status := .transferring } else u) }
    else .error .invalidState

/-- markCompleted. Modelled from the spec: §4.1, "terminal transition;
idempotent if already `completed`" (no failure case is specified). -/
def markCompleted (room : String) (s : Registry) : Registry :=
  { s with calls := s.calls.map (fun u =>
      if u.room_name = room then { u with status := .completed } else u) }

/-- initiateTransfer. Modelled from the spec: §4.2 steps 1–6. The summarizer
outcome is a parameter: `none` is a Summary Generator failure, recovered by
the deterministic fallback (step 2, "this call never aborts the transfer").
Step 3 allocates the transfer room from the client's hint, "guaranteed
distinct from all existing room names"; a colliding hint or id is refused
with `ConflictError` (the bounded-retry conflict of §4.1/§7). Step 4 mints
the two briefing-room credentials; steps 5–6 insert the Transfer Session and
mark the call `transferring` as one atomic unit. -/
def initiateTransfer (originalRoom hint agentA agentB transcript callerName : String)
    (genTid now : Nat) (summOutcome : Option (String × String)) (s : Registry) :
    Except ApiError (TransferSession × Registry) :=
  match s.calls.find? (fun c => decide (c.room_name = originalRoom)) with
  | none => .error .notFound
  | some c =>
    if c.status = .active then
      let pair := summOutcome.getD (fallbackSummary transcript, fallbackScript)
      if hint ∈ allRooms s ∨ genTid ∈ s.transfers.map (fun t => t.transfer_id) then
        .error .conflict
      else
        let (_, s1) := mint agentA hint s
        let (_, s2) := mint agentB hint s1
        let ts : TransferSession :=
          ⟨genTid, originalRoom, callerName, agentB, hint, pair.1, pair.2,
            .briefing, none, none, now⟩
        let s3 := { s2 with transfers := s2.transfers ++ [ts] }
        match markTransferring originalRoom s3 with
        | .error _ => .error .conflict
        | .ok s4 => .ok (ts, s4)
    else .error .invalidState

/-- completeTransfer. Modelled from the spec: §4.2, "If the Transfer Session
is already `completed`, return its stored final room and caller credential
unchanged ... Otherwise, verify status is `briefing`; mint the caller's
credential into the transfer room (which becomes the final room ...), store
it, set status `completed`, and call Session Registry.markCompleted". Fails
with `NotFoundError` for an unknown transfer id and `InvalidStateError` for a
mismatched original room. -/
def completeTransfer (tid : Nat) (originalRoom callerName _agentB : String)
    (s : Registry) : Except ApiError ((String × Credential) × Registry) :=
  match s.transfers.find? (fun t => decide (t.transfer_id = tid)) with
  | none => .error .notFound
  | some t =>
    if t.original_room = originalRoom then
      match t.status, t.final_room, t.caller_credential with
      | .completed, some fr, some cred => .ok ((fr, cred), s)
      | .completed, _, _ => .error .invalidState
      | .briefing, _, _ =>
        let (cred, s1) := mint callerName t.transfer_room s
        let s2 := { s1 with transfers := s1.transfers.map (fun u =>
            if u.transfer_id = tid then
              { u with status := .completed, final_room := some u.transfer_room,
                       caller_credential := some cred }
            else u) }
        .ok ((t.transfer_room, cred), markCompleted originalRoom s2)
    else .error .invalidState

/-- findCompletedByCaller. Modelled from the spec: §4.2, "must return the
single most recent completed transfer for that caller name if more than one
exists historically (monotonically increasing creation order breaks ties)";
transfers are appended in creation order, so the last match is the most
recent. -/
def findCompletedByCaller (callerName : String) (s : Registry) : Option TransferSession :=
  (s.transfers.filter (fun t =>
    decide (t.caller_name = callerName) && decide (t.status = .completed))).getLast?

/-- The caller transfer-status poll. Modelled from the spec: §6 "Caller
transfer status" row, `{transfer_complete: bool, final_room?,
caller_credential?}`: `none` stands for `transfer_complete = false`, and
`some (finalRoom, credential)` for `transfer_complete = true` with the stored
final room and caller credential. -/
def callerTransferStatus (callerName : String) (s : Registry) : Option (String × Credential) :=
  match findCompletedByCaller callerName s with
  | none => none
  | some t =>
    match t.final_room, t.caller_credential with
    | some fr, some cred => some (fr, cred)
    | _, _ => none

/-- One orchestration operation; generated ids, room names, timestamps and
the summarizer outcome appear as explicit parameters (the nondeterminism of
the environment made explicit). -/
inductive Op
  | createCall (callerName : String) (genId : Nat) (genRoom : String) (now : Nat)
  | initiateTransfer (originalRoom hint agentA agentB transcript callerName : String)
      (genTid now : Nat) (summOutcome : Option (String × String))
  | completeTransfer (tid : Nat) (originalRoom callerName agentB : String)
deriving DecidableEq

/-- Apply one operation; a failed operation leaves the registries unchanged
(§4.2: a failing operation is "never left half-inserted"). -/
def applyOp (s : Registry) : Op → Registry
  | .createCall n gid groom now =>
    match createCall n gid groom now s with
    | .ok (_, s') => s'
    | .error _ => s
  | .initiateTransfer oroom hint aA aB tr cn gtid now so =>
    match initiateTransfer oroom hint aA aB tr cn gtid now so s with
    | .ok (_, s') => s'
    | .error _ => s
  | .completeTransfer tid oroom cn aB =>
    match completeTransfer tid oroom cn aB s with
    | .ok (_, s') => s'
    | .error _ => s

/-- The registry state after a sequence of operations, from the empty state. -/
def runOps (ops : List Op) : Registry :=
  ops.foldl applyOp Registry.empty

example : (runOps [.createCall "X" 1 "call_1" 1]).calls.length = 1 := by decide

example :
    (runOps [.createCall "X" 1 "call_1" 1,
             .initiateTransfer "call_1" "transfer_1" "agent_a" "bob" "t" "X" 10 2
               (some ("s", "sc"))]).transfers.length = 1 := by decide

/-! ## The warm-transfer client page (src/unnamed/part_001) -/

/-- The role selector of the page (`type UserRole`). -/
inductive UserRole
  | caller
  | agent_a
  | agent_b
deriving DecidableEq

/-- The client-side `CallSession` payload (the fields the modelled behaviour
reads). -/
structure ClientCallSession where
  call_id : String
  room_name : String
deriving DecidableEq

/-- The client-side `TransferSession` payload (the fields the modelled
behaviour reads; `livekit_url` is the field `connectToFinalRoom`
dereferences). -/
structure ClientTransfer where
  transfer_id : String
  transfer_room : String
  livekit_url : String
  agent_script : String
deriving DecidableEq

/-- The `transferStep` state (`"idle" | "briefing" | "completing" | "completed"`). -/
inductive TransferStep
  | idle
  | briefing
  | completing
  | completed
deriving DecidableEq

/-- `addLog` (src/unnamed/part_001 lines 97–101):
`setLogs((prev) => [...prev.slice(-9), entry])`, where `entry` is the
timestamped message string. `prev.slice(-9)` is the last `min 9 prev.length`
entries, which is `prev.drop (prev.length - 9)` (truncated subtraction). -/
def addLog (prev : List String) (entry : String) : List String :=
  prev.drop (prev.length - 9) ++ [entry]

/-- The React state of the warm-transfer page: the `useState` hooks that the
modelled behaviour reads or writes. The connected LiveKit room object is
modelled as the pair (room name, token used to connect); `none` is the null
room reference. -/
structure ClientState where
  userRole : UserRole
  userName : String
  isConnected : Bool
  participants : List String
  room : Option (String × String)
  currentCallSession : Option ClientCallSession
  currentTransfer : Option ClientTransfer
  transferStep : TransferStep
  isTransferring : Bool
  showTransferModal : Bool
  transcript : String
  callSummary : String
  agentScript : String
  logs : List String
  error : String
deriving DecidableEq

/-- `disconnectCall` (src/unnamed/part_001 lines 757–775): when a room is
connected it is disconnected first — firing the `Disconnected` handler of
`setupRoomEvents` (lines 138–142), which sets `isConnected` false, clears
`participants` and logs — and the room reference is nulled; then every
session, transfer and transcript state is reset. -/
def disconnectCall (s : ClientState) : ClientState :=
  let s1 :=
    if s.room.isSome then
      { s with room := none, isConnected := false, participants := [],
               logs := addLog s.logs "Disconnected from room" }
    else s
  { s1 with
    isConnected := false
    participants := []
    currentCallSession := none
    currentTransfer := none
    transferStep := TransferStep.idle
    isTransferring := false
    showTransferModal := false
    transcript := ""
    callSummary := ""
    agentScript := ""
    logs := addLog s1.logs "Disconnected from call" }

/-- The kinds of status polls the page's interval hooks issue. -/
inductive PollKind
  | latestCall
  | activeTransfers
  | transferStatus
deriving DecidableEq

/-- The truthiness test `userName.trim()` used by the hooks: true exactly
when the name contains a non-whitespace character (i.e. trims to a non-empty
string). -/
def nameNonBlank (s : String) : Bool :=
  s.data.any (fun c => !c.isWhitespace)

/-- The polls issued at one interval tick. Each of the three `useEffect`
hooks (src/unnamed/part_001 lines 268–277, 339–348 and 376–384) keeps an
interval alive exactly while its condition on `(userRole, isConnected,
userName)` holds, and clears it when the dependencies change:
Agent A polls `/calls/latest` while not connected; Agent B polls
`/transfers/active` while not connected; the caller polls
`/caller/{name}/transfer-status` while connected with a nonempty name. -/
def pollsAt (s : ClientState) : List PollKind :=
  (if s.userRole = UserRole.agent_a ∧ s.isConnected = false
   then [PollKind.latestCall] else []) ++
  (if s.userRole = UserRole.agent_b ∧ s.isConnected = false
   then [PollKind.activeTransfers] else []) ++
  (if s.userRole = UserRole.caller ∧ s.isConnected = true ∧ nameNonBlank s.userName = true
   then [PollKind.transferStatus] else [])

/-- `connectToFinalRoom(token, roomName)` (src/unnamed/part_001 lines
672–702). The connect call reads `currentTransfer!.livekit_url`: when
`currentTransfer` is null this throws a TypeError that the surrounding
try/catch absorbs — only the error text and a log entry are produced, the
room, connection state and polling conditions are untouched. When
`currentTransfer` is present, the final room is connected with the given
token (its `Connected` handler sets `isConnected` true), then the previous
room — if any — is disconnected (its `Disconnected` handler then sets
`isConnected` false and clears `participants`), and the room reference is
replaced by the final room. -/
def connectToFinalRoom (token roomName : String) (s : ClientState) : ClientState :=
  match s.currentTransfer with
  | none =>
    { s with error := "Failed to connect to final room",
             logs := addLog s.logs "Failed to connect to final room" }
  | some _ =>
    match s.room with
    | some _ =>
      { s with room := some (roomName, token), isConnected := false,
               participants := [],
               logs := addLog (addLog s.logs "Connected to room") "Disconnected from room" }
    | none =>
      { s with room := some (roomName, token), isConnected := true,
               logs := addLog s.logs "Connected to room" }

/-- The external events driving the page: interval ticks, the LiveKit room
events of `setupRoomEvents`, and a transfer-status poll response reporting
`transfer_complete = true` (`checkCallerTransferStatus`, src/unnamed/part_001
lines 351–373, then calls
`connectToFinalRoom(data.caller_token, data.final_room)`). -/
inductive ClientEvent
  | tick
  | roomConnected
  | roomDisconnected
  | completedResponse (finalRoom callerToken : String)
deriving DecidableEq

/-- One step of the page under an external event. -/
def stepEv (s : ClientState) : ClientEvent → ClientState
  | .tick => s
  | .roomConnected => { s with isConnected := true }
  | .roomDisconnected => { s with isConnected := false, participants := [] }
  | .completedResponse fr tok => connectToFinalRoom tok fr s

/-- The events that leave the client disconnected: a room disconnect, or the
completed-transfer response (whose handler ends with the old room's
`Disconnected` event). -/
def disconnecting : ClientEvent → Bool
  | .roomDisconnected => true
  | .completedResponse _ _ => true
  | _ => false

/-- The polls a run of events issues: the polls of `pollsAt` at each tick. -/
def tracePolls (s : ClientState) : List ClientEvent → List PollKind
  | [] => []
  | e :: rest =>
    (if e = ClientEvent.tick then pollsAt s else []) ++ tracePolls (stepEv s e) rest

/-! ## The room page (src/frontend/src/app/page.tsx) -/

/-- The participant-list events of the room page's `joinRoom`: the
`participantConnected` and `participantDisconnected` handlers (lines 58–72)
and the delayed snapshot of the room's identities (lines 80–87). -/
inductive PEvent
  | connected (identity : String)
  | disconnected (identity : String)
  | snapshot (roomIdentities : List String)
deriving DecidableEq

/-- One update of the `participants` state for the local identity `me`:
`participantConnected` appends unless the identity is the local one or
already listed; `participantDisconnected` filters the identity out; the
delayed snapshot replaces the list by the room's identities with the local
one excluded. -/
def partStep (me : String) (ps : List String) : PEvent → List String
  | .connected i => if i ≠ me ∧ i ∉ ps then ps ++ [i] else ps
  | .disconnected i => ps.filter (fun j => decide (j ≠ i))
  | .snapshot roomIds => roomIds.filter (fun j => decide (j ≠ me))

/-- The `participants` state after a run of events, from the empty initial
state. -/
def runPEvents (me : String) (evs : List PEvent) : List String :=
  evs.foldl (partStep me) []

/-! ## Helper lemmas -/

/-- Mapping a function that leaves a projection unchanged leaves the
projected list unchanged. -/
theorem map_comp_fix {α β : Type} (l : List α) (f : α → α) (proj : α → β)
    (h : ∀ a, proj (f a) = proj a) : (l.map f).map proj = l.map proj := by
  rw [List.map_map]
  exact List.map_congr_left (fun a _ => h a)

/-- `find?` commutes with a map that leaves the search predicate unchanged. -/
theorem find?_map_fix {α : Type} (f : α → α) (p : α → Bool)
    (hp : ∀ a, p (f a) = p a) :
    ∀ l : List α, (l.map f).find? p = (l.find? p).map f := by
  intro l
  induction l with
  | nil => rfl
  | cons a tl ih =>
    by_cases hpa : p a = true
    · rw [List.map_cons, List.find?_cons_of_pos _ ((hp a).trans hpa),
        List.find?_cons_of_pos _ hpa, Option.map_some']
    · rw [List.map_cons,
        List.find?_cons_of_neg _ (by rw [hp a]; exact hpa),
        List.find?_cons_of_neg _ hpa, ih]

/-- `filter` commutes with `map` (the predicate composed through the map). -/
theorem filter_map_comm {α : Type} (f : α → α) (p : α → Bool) :
    ∀ l : List α, (l.map f).filter p = (l.filter (fun a => p (f a))).map f := by
  intro l
  induction l with
  | nil => rfl
  | cons a tl ih =>
    simp only [List.map_cons, List.filter_cons]
    by_cases hpa : p (f a) = true
    · simp [hpa, ih]
    · simp [hpa, ih]

/-- When a key list is duplicate-free, searching a member's key finds exactly
that member. -/
theorem find?_key_of_nodup {α β : Type} [DecidableEq β] (key : α → β) :
    ∀ (l : List α), (l.map key).Nodup → ∀ c ∈ l,
      l.find? (fun x => decide (key x = key c)) = some c := by
  intro l
  induction l with
  | nil => intro _ c hc; cases hc
  | cons a tl ih =>
    intro hnd c hc
    rw [List.map_cons, List.nodup_cons] at hnd
    rcases List.mem_cons.mp hc with hc | hc
    · subst hc
      exact List.find?_cons_of_pos _ (by simp)
    · have hne : key a ≠ key c := by
        intro he
        exact hnd.1 (he ▸ List.mem_map_of_mem key hc)
      rw [List.find?_cons_of_neg _ (by simp [hne]), ih hnd.2 c hc]

/-- When a key list is duplicate-free, filtering on a member's key yields
exactly that member. -/
theorem filter_key_of_nodup {α β : Type} [DecidableEq β] (key : α → β) :
    ∀ (l : List α), (l.map key).Nodup → ∀ c ∈ l,
      l.filter (fun x => decide (key x = key c)) = [c] := by
  intro l
  induction l with
  | nil => intro _ c hc; cases hc
  | cons a tl ih =>
    intro hnd c hc
    rw [List.map_cons, List.nodup_cons] at hnd
    rcases List.mem_cons.mp hc with hc | hc
    · subst hc
      rw [List.filter_cons_of_pos (by simp)]
      have : tl.filter (fun x => decide (key x = key c)) = [] := by
        rw [List.filter_eq_nil_iff]
        intro b hb hk
        have hbc : key b = key c := of_decide_eq_true hk
        exact hnd.1 (hbc ▸ List.mem_map_of_mem key hb)
      rw [this]
    · have hne : key a ≠ key c := by
        intro he
        exact hnd.1 (he ▸ List.mem_map_of_mem key hc)
      rw [List.filter_cons_of_neg (by simp [hne]), ih hnd.2 c hc]

/-- The fallback summary is never empty. -/
theorem fallbackSummary_ne_empty (transcript : String) :
    fallbackSummary transcript ≠ "" := by
  intro h
  have h2 := congrArg String.length h
  rw [fallbackSummary, String.length_append] at h2
  have hl : ("Summary unavailable. Transcript excerpt: " : String).length = 41 := by decide
  have h0 : ("" : String).length = 0 := by decide
  omega

/-- The fallback briefing script is never empty. -/
theorem fallbackScript_ne_empty : fallbackScript ≠ "" := by
  decide

/-! ## The registry invariant -/

/-- The reachability invariant of the registries: all room names the two
registries know are pairwise distinct; the transfers' original rooms are
pairwise distinct (at most one transfer was ever created per call); the
transfers' ids are pairwise distinct; and every transfer references a
currently non-`active` call owning its original room. -/
def RInv (s : Registry) : Prop :=
  (allRooms s).Nodup ∧
  (s.transfers.map (fun t => t.original_room)).Nodup ∧
  (s.transfers.map (fun t => t.transfer_id)).Nodup ∧
  ∀ t ∈ s.transfers, ∃ c ∈ s.calls,
    c.room_name = t.original_room ∧ c.status ≠ CallStatus.active

theorem rinv_empty : RInv Registry.empty := by
  refine ⟨List.nodup_nil, List.nodup_nil, List.nodup_nil, ?_⟩
  intro t ht
  cases ht

/-- Appending a fresh element keeps an append-shaped list duplicate-free. -/
theorem nodup_append_singleton_append {α : Type} {A B : List α} {x : α}
    (h : (A ++ B).Nodup) (hx : x ∉ A ++ B) : ((A ++ [x]) ++ B).Nodup := by
  rw [List.append_assoc, List.singleton_append]
  exact (List.perm_middle.nodup_iff).mpr (List.nodup_cons.mpr ⟨hx, h⟩)

theorem rinv_createCall {n : String} {gid : Nat} {groom : String} {now : Nat}
    {s : Registry} {c : CallSession} {s' : Registry} (h : RInv s)
    (hok : createCall n gid groom now s = .ok (c, s')) : RInv s' := by
  rw [createCall] at hok
  by_cases hg : groom ∈ allRooms s ∨ gid ∈ s.calls.map (fun x => x.call_id)
  · rw [if_pos hg] at hok; cases hok
  · rw [if_neg hg] at hok
    simp only [mint] at hok
    injection hok with hok
    injection hok with hc hs'
    subst hc
    subst hs'
    obtain ⟨h1, h2, h3, h4⟩ := h
    push_neg at hg
    refine ⟨?_, h2, h3, ?_⟩
    · simp only [allRooms, List.map_append, List.map_cons, List.map_nil]
      exact nodup_append_singleton_append h1 hg.1
    · intro t ht
      obtain ⟨c', hc', hroom, hstat⟩ := h4 t ht
      exact ⟨c', List.mem_append_left _ hc', hroom, hstat⟩

/-- Appending a fresh element keeps a list duplicate-free. -/
theorem nodup_append_one {α : Type} {A : List α} {x : α}
    (h : A.Nodup) (hx : x ∉ A) : (A ++ [x]).Nodup := by
  have hp : List.Perm (A ++ [x]) (x :: (A ++ [])) := List.perm_middle
  rw [List.append_nil] at hp
  exact hp.nodup_iff.mpr (List.nodup_cons.mpr ⟨hx, h⟩)

theorem rinv_initiateTransfer {originalRoom hint aA aB tr cn : String}
    {gtid now : Nat} {so : Option (String × String)} {s : Registry}
    {ts : TransferSession} {s' : Registry} (h : RInv s)
    (hok : initiateTransfer originalRoom hint aA aB tr cn gtid now so s = .ok (ts, s')) :
    RInv s' := by
  rw [initiateTransfer] at hok
  cases hf : s.calls.find? (fun c => decide (c.room_name = originalRoom)) with
  | none => rw [hf] at hok; cases hok
  | some c =>
    rw [hf] at hok
    dsimp only at hok
    by_cases hact : c.status = CallStatus.active
    · rw [if_pos hact] at hok
      by_cases hg : hint ∈ allRooms s ∨ gtid ∈ s.transfers.map (fun t => t.transfer_id)
      · rw [if_pos hg] at hok; cases hok
      · rw [if_neg hg] at hok
        simp only [mint, markTransferring] at hok
        rw [hf] at hok
        dsimp only at hok
        rw [if_pos hact] at hok
        dsimp only at hok
        injection hok with hok
        injection hok with hts hs'
        subst hts
        subst hs'
        obtain ⟨h1, h2, h3, h4⟩ := h
        push_neg at hg
        have hcmem : c ∈ s.calls := List.mem_of_find?_eq_some hf
        have hcroom : c.room_name = originalRoom := by
          have h5 := List.find?_some hf
          simpa using h5
        have hgroom : ∀ u : CallSession,
            (if u.room_name = originalRoom then
              { u with status := CallStatus.transferring } else u).room_name
              = u.room_name := by
          intro u; split <;> rfl
        have hAnodup : (s.calls.map (fun x => x.room_name)).Nodup :=
          (List.nodup_append.mp h1).1
        refine ⟨?_, ?_, ?_, ?_⟩
        · simp only [allRooms, List.map_append, List.map_cons, List.map_nil]
          rw [map_comp_fix _ _ _ hgroom, ← List.append_assoc]
          refine nodup_append_one ?_ ?_
          · exact h1
          · exact hg.1
        · simp only [List.map_append, List.map_cons, List.map_nil]
          refine nodup_append_one h2 ?_
          intro hmem
          obtain ⟨t', ht', ht'room⟩ := List.mem_map.mp hmem
          obtain ⟨c', hc', hroom', hstat'⟩ := h4 t' ht'
          have : c' = c := by
            apply List.inj_on_of_nodup_map hAnodup hc' hcmem
            show c'.room_name = c.room_name
            rw [hroom', ht'room, hcroom]
          exact hstat' (by rw [this, hact])
        · simp only [List.map_append, List.map_cons, List.map_nil]
          exact nodup_append_one h3 hg.2
        · intro t ht
          rcases List.mem_append.mp ht with ht | ht
          · obtain ⟨c', hc', hroom', hstat'⟩ := h4 t ht
            refine ⟨(if c'.room_name = originalRoom then
              { c' with status := CallStatus.transferring } else c'),
              List.mem_map_of_mem _ hc', ?_, ?_⟩
            · rw [hgroom c', hroom']
            · split
              · intro hcon; cases hcon
              · exact hstat'
          · have hteq : t = _ := List.mem_singleton.mp ht
            subst hteq
            refine ⟨(if c.room_name = originalRoom then
              { c with status := CallStatus.transferring } else c),
              List.mem_map_of_mem _ hcmem, ?_, ?_⟩
            · rw [hgroom c, hcroom]
            · rw [if_pos hcroom]
              intro hcon; cases hcon
    · rw [if_neg hact] at hok; cases hok

theorem rinv_completeTransfer {tid : Nat} {oroom cn aB : String} {s : Registry}
    {p : String × Credential} {s' : Registry} (h : RInv s)
    (hok : completeTransfer tid oroom cn aB s = .ok (p, s')) : RInv s' := by
  rw [completeTransfer] at hok
  cases hf : s.transfers.find? (fun t => decide (t.transfer_id = tid)) with
  | none => rw [hf] at hok; cases hok
  | some t =>
    rw [hf] at hok
    dsimp only at hok
    by_cases horoom : t.original_room = oroom
    · rw [if_pos horoom] at hok
      split at hok
      · injection hok with hok
        injection hok with hp hs'
        subst hs'
        exact h
      · cases hok
      · simp only [mint, markCompleted] at hok
        injection hok with hok
        injection hok with hp hs'
        subst hs'
        obtain ⟨h1, h2, h3, h4⟩ := h
        have hfroom : ∀ u : TransferSession,
            (if u.transfer_id = tid then
              { u with status := TransferStatus.completed,
                       final_room := some u.transfer_room,
                       caller_credential := some ⟨cn, t.transfer_room, s.mintCount⟩ }
            else u).transfer_room = u.transfer_room := by
          intro u; split <;> rfl
        have hforig : ∀ u : TransferSession,
            (if u.transfer_id = tid then
              { u with status := TransferStatus.completed,
                       final_room := some u.transfer_room,
                       caller_credential := some ⟨cn, t.transfer_room, s.mintCount⟩ }
            else u).original_room = u.original_room := by
          intro u; split <;> rfl
        have hftid : ∀ u : TransferSession,
            (if u.transfer_id = tid then
              { u with status := TransferStatus.completed,
                       final_room := some u.transfer_room,
                       caller_credential := some ⟨cn, t.transfer_room, s.mintCount⟩ }
            else u).transfer_id = u.transfer_id := by
          intro u; split <;> rfl
        have hgroom : ∀ u : CallSession,
            (if u.room_name = oroom then
              { u with status := CallStatus.completed } else u).room_name
              = u.room_name := by
          intro u; split <;> rfl
        refine ⟨?_, ?_, ?_, ?_⟩
        · simp only [allRooms]
          rw [map_comp_fix _ _ _ hgroom, map_comp_fix _ _ _ hfroom]
          exact h1
        · rw [map_comp_fix _ _ _ hforig]
          exact h2
        · rw [map_comp_fix _ _ _ hftid]
          exact h3
        · intro t' ht'
          obtain ⟨u, hu, hfu⟩ := List.mem_map.mp ht'
          obtain ⟨c', hc', hroom', hstat'⟩ := h4 u hu
          refine ⟨(if c'.room_name = oroom then
            { c' with status := CallStatus.completed } else c'),
            List.mem_map_of_mem _ hc', ?_, ?_⟩
          · rw [hgroom c', hroom', ← hfu, hforig u]
          · split
            · intro hcon; cases hcon
            · exact hstat'
    · rw [if_neg horoom] at hok
      cases hok

theorem rinv_applyOp {s : Registry} (op : Op) (h : RInv s) : RInv (applyOp s op) := by
  cases op with
  | createCall n gid groom now =>
    simp only [applyOp]
    cases hE : createCall n gid groom now s with
    | error e => exact h
    | ok r =>
      obtain ⟨c, s'⟩ := r
      exact rinv_createCall h hE
  | initiateTransfer oroom hint aA aB tr cn gtid now so =>
    simp only [applyOp]
    cases hE : initiateTransfer oroom hint aA aB tr cn gtid now so s with
    | error e => exact h
    | ok r =>
      obtain ⟨ts, s'⟩ := r
      exact rinv_initiateTransfer h hE
  | completeTransfer tid oroom cn aB =>
    simp only [applyOp]
    cases hE : completeTransfer tid oroom cn aB s with
    | error e => exact h
    | ok r =>
      obtain ⟨p, s'⟩ := r
      exact rinv_completeTransfer h hE

/-- Every state reachable by a sequence of operations satisfies the registry
invariant. -/
theorem rinv_runOps (ops : List Op) : RInv (runOps ops) := by
  rw [runOps]
  have hstep : ∀ s, RInv s → RInv (ops.foldl applyOp s) := by
    induction ops with
    | nil => intro s hs; exact hs
    | cons op rest ih => intro s hs; exact ih _ (rinv_applyOp op hs)
  exact hstep _ rinv_empty

/-! ## C1: idempotent completion -/

/-- C1. completeTransfer is idempotent: when a complete-transfer call returns
`{finalRoom, callerCredential}` with resulting registry state `s₁`, the same
call with identical arguments on `s₁` returns the identically same pair and
leaves `s₁` entirely unchanged — in particular `mintCount` is unchanged (no
caller credential is minted) and no transfer or room is created. -/
theorem completeTransfer_idempotent
    (tid : Nat) (originalRoom callerName agentB : String) (s s₁ : Registry)
    (p : String × Credential)
    (h : completeTransfer tid originalRoom callerName agentB s = .ok (p, s₁)) :
    completeTransfer tid originalRoom callerName agentB s₁ = .ok (p, s₁) := by
  rw [completeTransfer] at h
  cases hf : s.transfers.find? (fun t => decide (t.transfer_id = tid)) with
  | none => rw [hf] at h; cases h
  | some t =>
    rw [hf] at h
    dsimp only at h
    by_cases horoom : t.original_room = originalRoom
    · rw [if_pos horoom] at h
      have htid : t.transfer_id = tid := by
        have h5 := List.find?_some hf
        simpa using h5
      cases hst : t.status with
      | completed =>
        rw [hst] at h
        cases hfr : t.final_room with
        | none => rw [hfr] at h; dsimp only at h; cases h
        | some fr =>
          rw [hfr] at h
          cases hcc : t.caller_credential with
          | none => rw [hcc] at h; dsimp only at h; cases h
          | some cred =>
            rw [hcc] at h
            dsimp only at h
            injection h with h
            injection h with hp hs
            subst hs
            rw [completeTransfer, hf]
            dsimp only
            rw [if_pos horoom, hst, hfr, hcc]
            dsimp only
            rw [hp]
      | briefing =>
        rw [hst] at h
        simp only [mint] at h
        injection h with h
        injection h with hp hs
        subst hs
        rw [completeTransfer]
        have hftid : ∀ u : TransferSession,
            (if u.transfer_id = tid then
              { u with status := TransferStatus.completed,
                       final_room := some u.transfer_room,
                       caller_credential :=
                         some ⟨callerName, t.transfer_room, s.mintCount⟩ }
            else u).transfer_id = u.transfer_id := by
          intro u; split <;> rfl
        have hpres : ∀ u : TransferSession,
            (decide ((if u.transfer_id = tid then
              { u with status := TransferStatus.completed,
                       final_room := some u.transfer_room,
                       caller_credential :=
                         some ⟨callerName, t.transfer_room, s.mintCount⟩ }
            else u).transfer_id = tid) : Bool) = decide (u.transfer_id = tid) := by
          intro u; simp only [hftid]
        have hmap :
            ((markCompleted originalRoom
              { s with mintCount := s.mintCount + 1,
                       transfers := s.transfers.map (fun u =>
                         if u.transfer_id = tid then
                           { u with status := TransferStatus.completed,
                                    final_room := some u.transfer_room,
                                    caller_credential :=
                                      some ⟨callerName, t.transfer_room, s.mintCount⟩ }
                         else u) }).transfers.find?
              (fun u => decide (u.transfer_id = tid)))
            = some { t with status := TransferStatus.completed,
                            final_room := some t.transfer_room,
                            caller_credential :=
                              some ⟨callerName, t.transfer_room, s.mintCount⟩ } := by
          simp only [markCompleted]
          rw [find?_map_fix _ _ hpres, hf]
          dsimp only [Option.map]
          rw [if_pos htid]
        rw [hmap]
        dsimp only
        rw [if_pos horoom, hp]
    · rw [if_neg horoom] at h
      cases h

/-- A demonstration run: one call, then one initiated transfer. -/
def demoOps1 : List Op :=
  [Op.createCall "X" 1 "call_1" 1,
   Op.initiateTransfer "call_1" "transfer_1" "agent_a" "bob" "t" "X" 10 2 (some ("s", "sc"))]

/-- The demonstration registry after completing the transfer of `demoOps1`. -/
def demoCompleted : Registry :=
  runOps (demoOps1 ++ [Op.completeTransfer 10 "call_1" "X" "bob"])

/-- Witness for C1: on the concrete demonstration run, the first completion
returns `("transfer_1", credential 4)` and the retry returns the identical
pair with the registry unchanged. -/
theorem completeTransfer_idempotent_witness :
    completeTransfer 10 "call_1" "X" "bob" (runOps demoOps1)
      = .ok ((("transfer_1", ⟨"X", "transfer_1", 4⟩) : String × Credential), demoCompleted) ∧
    completeTransfer 10 "call_1" "X" "bob" demoCompleted
      = .ok ((("transfer_1", ⟨"X", "transfer_1", 4⟩) : String × Credential), demoCompleted) :=
  ⟨rfl, completeTransfer_idempotent 10 "call_1" "X" "bob" (runOps demoOps1)
    demoCompleted ("transfer_1", ⟨"X", "transfer_1", 4⟩) rfl⟩

/-! ## C2: a second transfer against a non-active call is rejected -/

/-- C2. In every reachable registry state: initiating a transfer against the
room of a call whose status is not `active` (i.e. `transferring` or
`completed`) fails with `InvalidStateError` — so no second Transfer Session
is ever inserted for that call — and, as the resulting global invariant, the
transfers' original rooms are pairwise distinct: at most one Transfer Session
is ever created per Call Session. -/
theorem secondTransfer_rejected (ops : List Op) :
    (∀ c ∈ (runOps ops).calls, c.status ≠ CallStatus.active →
      ∀ (hint aA aB tr cn : String) (gtid now : Nat) (so : Option (String × String)),
        initiateTransfer c.room_name hint aA aB tr cn gtid now so (runOps ops)
          = .error ApiError.invalidState) ∧
    ((runOps ops).transfers.map (fun t => t.original_room)).Nodup := by
  obtain ⟨h1, h2, h3, h4⟩ := rinv_runOps ops
  refine ⟨?_, h2⟩
  intro c hc hstat hint aA aB tr cn gtid now so
  have hA : ((runOps ops).calls.map (fun x => x.room_name)).Nodup := by
    simp only [allRooms] at h1
    exact (List.nodup_append.mp h1).1
  have hfind := find?_key_of_nodup (fun x => x.room_name) (runOps ops).calls hA c hc
  rw [initiateTransfer, hfind]
  dsimp only
  rw [if_neg hstat]

/-! ## C3: room-name uniqueness -/

/-- C3. In every reachable registry state: the calls' room names are pairwise
distinct, the transfers' transfer-room names are pairwise distinct, and no
transfer room equals any call's original room. -/
theorem roomNames_unique (ops : List Op) :
    ((runOps ops).calls.map (fun c => c.room_name)).Nodup ∧
    ((runOps ops).transfers.map (fun t => t.transfer_room)).Nodup ∧
    ∀ t ∈ (runOps ops).transfers, ∀ c ∈ (runOps ops).calls,
      t.transfer_room ≠ c.room_name := by
  obtain ⟨h1, -, -, -⟩ := rinv_runOps ops
  simp only [allRooms] at h1
  obtain ⟨hA, hB, hdisj⟩ := List.nodup_append.mp h1
  refine ⟨hA, hB, ?_⟩
  intro t ht c hc heq
  exact hdisj (List.mem_map_of_mem _ hc) (heq ▸ List.mem_map_of_mem _ ht)

/-! ## C4: poll convergence -/

/-- A demonstration run with two transfers for the same caller name: the
transfer of `demoOps1` is still in briefing while a second call for "X" has
been created, transferred and completed. -/
def demoOps2 : List Op :=
  demoOps1 ++
  [Op.createCall "X" 2 "call_2" 3,
   Op.initiateTransfer "call_2" "transfer_2" "agent_a" "bob" "t" "X" 11 4 (some ("s", "sc")),
   Op.completeTransfer 11 "call_2" "X" "bob"]

/-- The registry after additionally completing the first (older) transfer of
`demoOps2`. -/
def demoShadowState : Registry :=
  runOps (demoOps2 ++ [Op.completeTransfer 10 "call_1" "X" "bob"])

/-- Counterexample to C4 as stated: with two transfers for caller "X", the
older one completed last, the completion call returns final room
"transfer_1", yet the very next caller-status poll for "X" reports the most
recently created completed transfer, final room "transfer_2" — not the room
this completion stored. (Likewise, polls issued before the first transfer's
completion already returned `transfer_complete = true`.) -/
theorem pollConvergence_counterexample :
    completeTransfer 10 "call_1" "X" "bob" (runOps demoOps2)
      = .ok ((("transfer_1", ⟨"X", "transfer_1", 9⟩) : String × Credential), demoShadowState) ∧
    callerTransferStatus "X" demoShadowState
      = some ("transfer_2", ⟨"X", "transfer_2", 8⟩) ∧
    (("transfer_2", (⟨"X", "transfer_2", 8⟩ : Credential)) : String × Credential)
      ≠ ("transfer_1", ⟨"X", "transfer_1", 9⟩) :=
  ⟨rfl, rfl, by decide⟩

/-- C4 as amended: when no transfer for the caller other than the completed
one exists (every transfer whose caller name is `X` is the one being
completed, still in briefing, and every transfer carrying its id belongs to
`X`), a caller-status poll before the completion reports
`transfer_complete = false`, and the poll after it reports
`transfer_complete = true` with exactly the final room and caller credential
the completion returned. -/
theorem pollConvergence_single_transfer (ops : List Op) (tid : Nat)
    (originalRoom X agentB fr : String) (cred : Credential) (s₁ : Registry)
    (h1 : completeTransfer tid originalRoom X agentB (runOps ops) = .ok ((fr, cred), s₁))
    (h2 : ∀ t ∈ (runOps ops).transfers, t.caller_name = X →
            t.transfer_id = tid ∧ t.status = TransferStatus.briefing)
    (h3 : ∀ t ∈ (runOps ops).transfers, t.transfer_id = tid → t.caller_name = X) :
    callerTransferStatus X (runOps ops) = none ∧
    callerTransferStatus X s₁ = some (fr, cred) := by
  obtain ⟨-, -, hnodtid, -⟩ := rinv_runOps ops
  rw [completeTransfer] at h1
  cases hf : (runOps ops).transfers.find? (fun t => decide (t.transfer_id = tid)) with
  | none => rw [hf] at h1; cases h1
  | some t =>
    rw [hf] at h1
    dsimp only at h1
    have htmem : t ∈ (runOps ops).transfers := List.mem_of_find?_eq_some hf
    have htid : t.transfer_id = tid := by
      have h5 := List.find?_some hf
      simpa using h5
    have hX : t.caller_name = X := h3 t htmem htid
    have hbrief : t.status = TransferStatus.briefing := (h2 t htmem hX).2
    by_cases horoom : t.original_room = originalRoom
    · rw [if_pos horoom, hbrief] at h1
      simp only [mint] at h1
      injection h1 with h1
      injection h1 with hp hs
      injection hp with hfr hcred
      subst hfr
      subst hcred
      subst hs
      constructor
      · rw [callerTransferStatus, findCompletedByCaller]
        have hnil : (runOps ops).transfers.filter
            (fun u => decide (u.caller_name = X) &&
              decide (u.status = TransferStatus.completed)) = [] := by
          rw [List.filter_eq_nil_iff]
          intro u hu hcon
          have hcon2 : u.caller_name = X ∧ u.status = TransferStatus.completed := by
            simpa using hcon
          have hub := (h2 u hu hcon2.1).2
          rw [hub] at hcon2
          cases hcon2.2
        rw [hnil]
        rfl
      · rw [callerTransferStatus, findCompletedByCaller]
        simp only [markCompleted]
        rw [filter_map_comm]
        have hcongr : ∀ u ∈ (runOps ops).transfers,
            ((decide ((if u.transfer_id = tid then
                { u with status := TransferStatus.completed,
                         final_room := some u.transfer_room,
                         caller_credential :=
                           some ⟨X, t.transfer_room, (runOps ops).mintCount⟩ }
              else u).caller_name = X) &&
              decide ((if u.transfer_id = tid then
                { u with status := TransferStatus.completed,
                         final_room := some u.transfer_room,
                         caller_credential :=
                           some ⟨X, t.transfer_room, (runOps ops).mintCount⟩ }
              else u).status = TransferStatus.completed)) : Bool)
            = decide (u.transfer_id = tid) := by
          intro u hu
          by_cases hid : u.transfer_id = tid
          · rw [if_pos hid]
            have hux : u.caller_name = X := h3 u hu hid
            simp [hux, hid]
          · rw [if_neg hid]
            have hnx : u.caller_name ≠ X := by
              intro hx
              exact hid (h2 u hu hx).1
            simp [hnx, hid]
        rw [List.filter_congr hcongr]
        have hsingle := filter_key_of_nodup (fun u => u.transfer_id)
          (runOps ops).transfers hnodtid t htmem
        dsimp only at hsingle
        rw [htid] at hsingle
        rw [hsingle, List.map_cons, List.map_nil, if_pos htid]
        rfl
    · rw [if_neg horoom] at h1
      cases h1

/-- Witness for the amended C4: on the single-transfer demonstration run the
poll is `none` before completion and reports final room "transfer_1" with the
stored credential after it. -/
theorem pollConvergence_single_transfer_witness :
    callerTransferStatus "X" (runOps demoOps1) = none ∧
    callerTransferStatus "X" demoCompleted
      = some ("transfer_1", ⟨"X", "transfer_1", 4⟩) :=
  pollConvergence_single_transfer demoOps1 10 "call_1" "X" "bob" "transfer_1"
    ⟨"X", "transfer_1", 4⟩ demoCompleted rfl (by decide) (by decide)

/-! ## C5: soft-fail summarization -/

/-- C5. When the Summary Generator fails (`summOutcome = none`),
initiate-transfer on an active call (fresh transfer room and id) still
succeeds, and the created Transfer Session carries a non-empty fallback
summary and a non-empty briefing script: the summarizer failure is never
surfaced as a failure of initiate-transfer. -/
theorem softFail_summarization (originalRoom hint aA aB transcript callerName : String)
    (gtid now : Nat) (s : Registry) (c : CallSession)
    (hfind : s.calls.find? (fun x => decide (x.room_name = originalRoom)) = some c)
    (hact : c.status = CallStatus.active)
    (hhint : hint ∉ allRooms s)
    (htid : gtid ∉ s.transfers.map (fun t => t.transfer_id)) :
    ∃ ts s', initiateTransfer originalRoom hint aA aB transcript callerName
        gtid now none s = .ok (ts, s') ∧
      ts.summary ≠ "" ∧ ts.agent_script ≠ "" := by
  rw [initiateTransfer, hfind]
  dsimp only
  rw [if_pos hact, if_neg (not_or.mpr ⟨hhint, htid⟩)]
  simp only [mint, markTransferring]
  rw [hfind]
  dsimp only
  rw [if_pos hact]
  dsimp only
  exact ⟨_, _, rfl, fallbackSummary_ne_empty transcript, fallbackScript_ne_empty⟩

/-- A demonstration run with a single active call. -/
def demoOps0 : List Op := [Op.createCall "J" 1 "call_1" 1]

/-- Witness for C5: with the summarizer failing, initiating a transfer on the
demonstration call succeeds with non-empty fallback summary and script. -/
theorem softFail_summarization_witness :
    ∃ ts s', initiateTransfer "call_1" "transfer_9" "agent_a" "bob" "billing" "J"
        77 2 none (runOps demoOps0) = .ok (ts, s') ∧
      ts.summary ≠ "" ∧ ts.agent_script ≠ "" :=
  softFail_summarization "call_1" "transfer_9" "agent_a" "bob" "billing" "J" 77 2
    (runOps demoOps0) ⟨1, "J", "call_1", CallStatus.active, 1⟩ rfl rfl
    (by decide) (by decide)

/-! ## C6: caller completion detection (code bug) -/

/-- The state of an ordinary connected caller: connected to the original
room, with `currentTransfer` null — a plain caller never passes through
`initiateTransfer` or `joinActiveTransfer`, the only places that set
`currentTransfer` (src/unnamed/part_001 lines 307, 574). -/
def buggyCallerState : ClientState :=
  { userRole := UserRole.caller, userName := "X", isConnected := true,
    participants := ["agent_a_A"], room := some ("call_1", "tok0"),
    currentCallSession := some ⟨"id1", "call_1"⟩, currentTransfer := none,
    transferStep := TransferStep.idle, isTransferring := false,
    showTransferModal := false, transcript := "", callSummary := "",
    agentScript := "", logs := [], error := "" }

/-- C6, evaluated at the failing input: when the connected caller's poll
response reports `transfer_complete = true`, `connectToFinalRoom` dereferences
the null `currentTransfer` (`currentTransfer!.livekit_url`), the thrown
TypeError is swallowed by its try/catch, and so the caller does **not** move
to the returned final room, stays connected to the original room, and keeps
issuing transfer-status polls — contradicting the claimed move-then-stop
behaviour. -/
theorem callerMove_nullTransfer_bug :
    (stepEv buggyCallerState (ClientEvent.completedResponse "transfer_1" "cred1")).room
      = some ("call_1", "tok0") ∧
    (stepEv buggyCallerState (ClientEvent.completedResponse "transfer_1" "cred1")).isConnected
      = true ∧
    PollKind.transferStatus ∈
      pollsAt (stepEv buggyCallerState (ClientEvent.completedResponse "transfer_1" "cred1")) := by
  decide

/-! ## C7: Agent A discovery polling -/

theorem agentA_no_polls_aux (evs : List ClientEvent) :
    ∀ s : ClientState, s.userRole = UserRole.agent_a → s.isConnected = true →
    (∀ e ∈ evs, disconnecting e = false) →
    PollKind.latestCall ∉ tracePolls s evs := by
  induction evs with
  | nil =>
    intro s _ _ _
    simp [tracePolls]
  | cons e rest ih =>
    intro s hrole hconn hne hmem
    rw [tracePolls] at hmem
    rcases List.mem_append.mp hmem with hm | hm
    · by_cases he : e = ClientEvent.tick
      · rw [if_pos he] at hm
        simp [pollsAt, hrole, hconn] at hm
      · rw [if_neg he] at hm
        cases hm
    · have hee := hne e (List.mem_cons_self e rest)
      cases e with
      | tick =>
        exact ih s hrole hconn (fun e' he' => hne e' (List.mem_cons_of_mem _ he')) hm
      | roomConnected =>
        exact ih (stepEv s ClientEvent.roomConnected) hrole rfl
          (fun e' he' => hne e' (List.mem_cons_of_mem _ he')) hm
      | roomDisconnected => exact Bool.noConfusion hee
      | completedResponse fr tok => exact Bool.noConfusion hee

/-- C7. Agent A discovery: while Agent A is not connected, every interval
tick issues a latest-active-call poll; and from any connected state, as long
as no event disconnects the client, no further latest-active-call poll is
ever issued. -/
theorem agentA_poll_stops_when_connected (s : ClientState)
    (hrole : s.userRole = UserRole.agent_a) :
    (s.isConnected = false → PollKind.latestCall ∈ pollsAt s) ∧
    (s.isConnected = true → ∀ evs : List ClientEvent,
      (∀ e ∈ evs, disconnecting e = false) →
      PollKind.latestCall ∉ tracePolls s evs) := by
  constructor
  · intro hconn
    simp [pollsAt, hrole, hconn]
  · intro hconn evs hne
    exact agentA_no_polls_aux evs s hrole hconn hne

/-- A connected Agent A demonstration state. -/
def demoAgentConn : ClientState :=
  { userRole := UserRole.agent_a, userName := "A", isConnected := true,
    participants := [], room := some ("call_1", "tok"),
    currentCallSession := none, currentTransfer := none,
    transferStep := TransferStep.idle, isTransferring := false,
    showTransferModal := false, transcript := "", callSummary := "",
    agentScript := "", logs := [], error := "" }

/-- Witness for C7: a connected Agent A issues no latest-call poll over a
concrete run of ticks. -/
theorem agentA_poll_stops_when_connected_witness :
    PollKind.latestCall ∉ tracePolls demoAgentConn
      [ClientEvent.tick, ClientEvent.roomConnected, ClientEvent.tick] :=
  (agentA_poll_stops_when_connected demoAgentConn rfl).2 rfl
    [ClientEvent.tick, ClientEvent.roomConnected, ClientEvent.tick] (by decide)

/-! ## C8: bounded activity log -/

/-- C8. `addLog` keeps at most the 9 most recent previous entries (a suffix
of the previous list) followed by the new entry, so the log list's length
never exceeds 10. -/
theorem addLog_bounded (prev : List String) (entry : String) :
    (addLog prev entry).length ≤ 10 ∧
    ∃ tail, tail <:+ prev ∧ tail.length ≤ 9 ∧ addLog prev entry = tail ++ [entry] := by
  constructor
  · rw [addLog, List.length_append, List.length_drop]
    simp
    omega
  · exact ⟨prev.drop (prev.length - 9), List.drop_suffix _ _,
      by rw [List.length_drop]; omega, rfl⟩

/-! ## C9: participant-list invariant of the room page -/

theorem participants_aux (me : String) (evs : List PEvent) :
    ∀ ps : List String, ps.Nodup → me ∉ ps →
    (∀ L, PEvent.snapshot L ∈ evs → L.Nodup) →
    (evs.foldl (partStep me) ps).Nodup ∧ me ∉ evs.foldl (partStep me) ps := by
  induction evs with
  | nil =>
    intro ps h1 h2 _
    exact ⟨h1, h2⟩
  | cons e rest ih =>
    intro ps h1 h2 hsnap
    rw [List.foldl_cons]
    refine ih _ ?_ ?_ (fun L hL => hsnap L (List.mem_cons_of_mem _ hL))
    · cases e with
      | connected i =>
        rw [partStep]
        split
        · next hcond => exact nodup_append_one h1 hcond.2
        · exact h1
      | disconnected i => exact h1.filter _
      | snapshot L => exact (hsnap L (List.mem_cons_self _ _)).filter _
    · cases e with
      | connected i =>
        rw [partStep]
        split
        · next hcond =>
          intro hmem
          rcases List.mem_append.mp hmem with hmem | hmem
          · exact h2 hmem
          · exact hcond.1 ((List.mem_singleton.mp hmem).symm)
        · exact h2
      | disconnected i =>
        intro hmem
        exact h2 (List.mem_of_mem_filter hmem)
      | snapshot L =>
        intro hmem
        have hpme := List.of_mem_filter hmem
        simp at hpme

/-- C9. Under every event sequence of `participantConnected`,
`participantDisconnected` and the delayed snapshot — the snapshot lists being
duplicate-free, as room identities are unique on the media platform — the
`participants` state never contains the local identity and never contains the
same identity twice. -/
theorem participants_invariant (me : String) (evs : List PEvent)
    (hsnap : ∀ L, PEvent.snapshot L ∈ evs → L.Nodup) :
    (runPEvents me evs).Nodup ∧ me ∉ runPEvents me evs :=
  participants_aux me evs [] List.nodup_nil (List.not_mem_nil me) hsnap

/-- The demonstration event sequence of the room page: a duplicate connect, a
connect of the local identity, a snapshot containing the local identity, and
a disconnect. -/
def demoPEvents : List PEvent :=
  [PEvent.connected "Bob", PEvent.connected "Bob", PEvent.connected "Alice",
   PEvent.snapshot ["Alice", "Bob", "Carol"], PEvent.disconnected "Bob"]

/-- Witness for C9 on the demonstration sequence. -/
theorem participants_invariant_witness :
    (runPEvents "Alice" demoPEvents).Nodup ∧
    "Alice" ∉ runPEvents "Alice" demoPEvents :=
  participants_invariant "Alice" demoPEvents (by
    intro L hL
    simp only [demoPEvents, List.mem_cons, List.not_mem_nil, or_false] at hL
    rcases hL with h | h | h | h | h
    · cases h
    · cases h
    · cases h
    · injection h with h
      subst h
      decide
    · cases h)

/-! ## C10: disconnectCall resets the session state -/

/-- C10. After `disconnectCall`, the room reference is null, `isConnected` is
false, the participants list is empty, `currentCallSession` and
`currentTransfer` are null, `transferStep` is idle, `isTransferring` and
`showTransferModal` are false, and the transcript, call summary and agent
script are all empty. -/
theorem disconnectCall_resets (s : ClientState) :
    (disconnectCall s).room = none ∧
    (disconnectCall s).isConnected = false ∧
    (disconnectCall s).participants = [] ∧
    (disconnectCall s).currentCallSession = none ∧
    (disconnectCall s).currentTransfer = none ∧
    (disconnectCall s).transferStep = TransferStep.idle ∧
    (disconnectCall s).isTransferring = false ∧
    (disconnectCall s).showTransferModal = false ∧
    (disconnectCall s).transcript = "" ∧
    (disconnectCall s).callSummary = "" ∧
    (disconnectCall s).agentScript = "" := by
  by_cases hr : s.room.isSome
  · simp [disconnectCall, hr]
  · simp [disconnectCall, hr, Option.not_isSome_iff_eq_none.mp hr]

end WarmTransfer
